/-
Verification of the rust_terminal repository (a small interactive shell with
a CLI front end in main.rs and a GUI front end in gui.rs) against its
natural-language specification.

The development shallowly embeds the program:

* The filesystem is a finite tree `FNode` (regular files and directories with
  named entries).  Paths are the string values the program manipulates; they
  are resolved to segment lists by `splitPath` / `resolvePath`.  OS calls
  (`read_dir`, `create_dir`, `remove_file`, `remove_dir`, `remove_dir_all`,
  `set_current_dir`, `exists`, `is_dir`, `is_file`) are modelled as pure
  functions on the tree, with the POSIX behaviour that an empty path name
  always fails with "No such file or directory".  The model covers paths
  whose components are ordinary names (no ".." or symlinks; "." components
  are resolved away), which is the class of paths the claims exercise.
* Rust string / Path library functions used by the program
  (`split_whitespace`, `trim`, `trim_end_matches`, `starts_with`,
  `ends_with`, `Path::parent`, `Path::file_name`, `Vec::sort`) are given
  reference implementations on Lean strings (`String` is a list of unicode
  scalar values, matching Rust `char` iteration; byte-wise UTF-8 string
  order coincides with code-point order, so `Vec::sort` on strings is
  modelled by insertion sort with the lexicographic order on `String`).
* Each built-in command of the two front ends (main.rs and gui.rs) is
  embedded as a pure function from the filesystem tree and current
  directory to the updated tree and the emitted output lines (for the CLI
  `ls`, which uses `print!` without newlines, the raw printed text).
-/
import Mathlib

set_option maxHeartbeats 1000000

/-! ## Rust string and path library models -/

/-- Models Rust `str::starts_with(char)`. -/
def strStartsWith (s : String) (c : Char) : Bool :=
  match s.toList with
  | [] => false
  | d :: _ => d = c

/-- Models Rust `str::ends_with(char)`. -/
def strEndsWithChar (s : String) (c : Char) : Bool :=
  match s.toList.getLast? with
  | none => false
  | some d => d = c

/-- Models Rust `str::starts_with(&str)` (string prefix test). -/
def strHasPrefix (p s : String) : Bool :=
  p.toList.isPrefixOf s.toList

/-- Models Rust `str::trim_end_matches('\t')`: removes every trailing tab. -/
def trimEndTabs (s : String) : String :=
  String.mk ((s.toList.reverse.dropWhile (fun c => c = '\t')).reverse)

/-- Whitespace characters recognised by the model of Rust
`char::is_whitespace` (the ASCII whitespace the program can encounter). -/
def isWhitespaceChar (c : Char) : Bool :=
  c = ' ' || c = '\t' || c = '\n' || c = '\r'

/-- Models Rust `str::trim`. -/
def rustTrim (s : String) : String :=
  String.mk (((s.toList.dropWhile isWhitespaceChar).reverse.dropWhile isWhitespaceChar).reverse)

/-- Helper for `split_whitespace`: splits a character list at whitespace,
dropping empty pieces. -/
def splitWhitespaceAux : List Char → List Char → List (List Char)
  | [], acc => if acc = [] then [] else [acc.reverse]
  | c :: cs, acc =>
    if isWhitespaceChar c then
      if acc = [] then splitWhitespaceAux cs []
      else acc.reverse :: splitWhitespaceAux cs []
    else splitWhitespaceAux cs (c :: acc)

/-- Models Rust `str::split_whitespace` (collected to a vector). -/
def split_whitespace (s : String) : List String :=
  (splitWhitespaceAux s.toList []).map String.mk

/-- Helper: splits a character list on a separator character, keeping empty
segments, like Rust `str::split(char)` / `String.splitOn`. -/
def splitOnCharAux (sep : Char) : List Char → List Char → List (List Char)
  | [], acc => [acc.reverse]
  | c :: cs, acc =>
    if c = sep then acc.reverse :: splitOnCharAux sep cs []
    else splitOnCharAux sep cs (c :: acc)

/-- Segments of a path string: split on the separator, with empty and "."
segments resolved away (the class of paths used by the claims has no ".."
components). -/
def splitPath (s : String) : List String :=
  (((splitOnCharAux '/' s.toList []).map String.mk).filter
    (fun seg => seg != "" && seg != "."))

/-- Models Rust `Path::new(s).parent()` composed with `to_str`, for path
strings without a trailing separator whose components are ordinary names:
the parent of a bare name is `some ""` (this is the documented Rust
behaviour: only the empty path and root-terminated paths have no parent). -/
def rustParent (s : String) : Option String :=
  if s = "" || s = "/" then none
  else
    let segs := (splitOnCharAux '/' s.toList []).map String.mk
    let init := segs.dropLast
    if init = [] then some ""
    else if init = [""] then some "/"
    else some (String.intercalate "/" init)

/-- Models Rust `Path::new(s).file_name()` composed with `to_str`, for path
strings whose components are ordinary names. -/
def rustFileName (s : String) : Option String :=
  match ((splitOnCharAux '/' s.toList []).map String.mk).getLast? with
  | none => none
  | some last => if last = "" then none else some last

/-! ## Filesystem model -/

/-- A filesystem node: a regular file, or a directory with named entries
(the entry list order is the order the OS returns entries from `read_dir`,
which is arbitrary). -/
inductive FNode where
  | file : FNode
  | dir : List (String × FNode) → FNode

/-- Association-list lookup of a directory entry by name. -/
def lookupEntry : List (String × FNode) → String → Option FNode
  | [], _ => none
  | (k, v) :: es, name => if k = name then some v else lookupEntry es name

/-- Replaces the entry with the given name (if present). -/
def setEntry (es : List (String × FNode)) (name : String) (n : FNode) :
    List (String × FNode) :=
  es.map (fun e => if e.1 = name then (name, n) else e)

/-- Removes the entry with the given name. -/
def removeEntry (es : List (String × FNode)) (name : String) :
    List (String × FNode) :=
  es.filter (fun e => e.1 != name)

/-- Walks a segment path down from a node. -/
def FNode.lookup (node : FNode) : List String → Option FNode
  | [] => some node
  | s :: rest =>
    match node with
    | .file => none
    | .dir es =>
      match lookupEntry es s with
      | some child => child.lookup rest
      | none => none

/-- Whether a node is a directory. -/
def FNode.isDirNode : FNode → Bool
  | .file => false
  | .dir _ => true

/-- Models `fs::create_dir` at a resolved segment path (non-recursive:
the parent must exist; the path itself must not). -/
def FNode.createDirAt : FNode → List String → Except String FNode
  | .file, _ => .error "Not a directory (os error 20)"
  | .dir _, [] => .error "File exists (os error 17)"
  | .dir es, [name] =>
    match lookupEntry es name with
    | some _ => .error "File exists (os error 17)"
    | none => .ok (.dir (es ++ [(name, .dir [])]))
  | .dir es, name :: rest =>
    match lookupEntry es name with
    | some child =>
      match child.createDirAt rest with
      | .ok child' => .ok (.dir (setEntry es name child'))
      | .error e => .error e
    | none => .error "No such file or directory (os error 2)"

/-- Models `fs::remove_file` at a resolved segment path. -/
def FNode.removeFileAt : FNode → List String → Except String FNode
  | _, [] => .error "Is a directory (os error 21)"
  | .file, _ :: _ => .error "Not a directory (os error 20)"
  | .dir es, [name] =>
    match lookupEntry es name with
    | some .file => .ok (.dir (removeEntry es name))
    | some (.dir _) => .error "Is a directory (os error 21)"
    | none => .error "No such file or directory (os error 2)"
  | .dir es, name :: rest =>
    match lookupEntry es name with
    | some child =>
      match child.removeFileAt rest with
      | .ok child' => .ok (.dir (setEntry es name child'))
      | .error e => .error e
    | none => .error "No such file or directory (os error 2)"

/-- Models `fs::remove_dir_all` at a resolved segment path (the program only
calls it on existing directories). -/
def FNode.removeDirAllAt : FNode → List String → Except String FNode
  | _, [] => .error "Invalid argument (os error 22)"
  | .file, _ :: _ => .error "Not a directory (os error 20)"
  | .dir es, [name] =>
    match lookupEntry es name with
    | some _ => .ok (.dir (removeEntry es name))
    | none => .error "No such file or directory (os error 2)"
  | .dir es, name :: rest =>
    match lookupEntry es name with
    | some child =>
      match child.removeDirAllAt rest with
      | .ok child' => .ok (.dir (setEntry es name child'))
      | .error e => .error e
    | none => .error "No such file or directory (os error 2)"

/-- Models `fs::remove_dir` at a resolved segment path (only empty
directories are removed). -/
def FNode.removeDirAt : FNode → List String → Except String FNode
  | _, [] => .error "Device or resource busy (os error 16)"
  | .file, _ :: _ => .error "Not a directory (os error 20)"
  | .dir es, [name] =>
    match lookupEntry es name with
    | some (.dir []) => .ok (.dir (removeEntry es name))
    | some (.dir (_ :: _)) => .error "Directory not empty (os error 39)"
    | some .file => .error "Not a directory (os error 20)"
    | none => .error "No such file or directory (os error 2)"
  | .dir es, name :: rest =>
    match lookupEntry es name with
    | some child =>
      match child.removeDirAt rest with
      | .ok child' => .ok (.dir (setEntry es name child'))
      | .error e => .error e
    | none => .error "No such file or directory (os error 2)"

/-! ## OS call models

Every OS path call takes the filesystem root, the current working directory
(as a segment list) and the path string the program passes.  An empty path
string always fails (POSIX: an empty pathname does not resolve). -/

/-- Resolves a path string against the current directory. -/
def resolvePath (cwd : List String) (p : String) : List String :=
  if strStartsWith p '/' then splitPath p else cwd ++ splitPath p

/-- Models `Path::exists`. -/
def osExists (root : FNode) (cwd : List String) (p : String) : Bool :=
  p != "" && (root.lookup (resolvePath cwd p)).isSome

/-- Models `Path::is_dir`. -/
def osIsDir (root : FNode) (cwd : List String) (p : String) : Bool :=
  p != "" &&
    match root.lookup (resolvePath cwd p) with
    | some (.dir _) => true
    | _ => false

/-- Models `Path::is_file`. -/
def osIsFile (root : FNode) (cwd : List String) (p : String) : Bool :=
  p != "" &&
    match root.lookup (resolvePath cwd p) with
    | some .file => true
    | _ => false

/-- Models `fs::read_dir` (entries with their `is_dir` status, in the order
stored in the tree). -/
def osReadDirE (root : FNode) (cwd : List String) (p : String) :
    Except String (List (String × Bool)) :=
  if p = "" then .error "No such file or directory (os error 2)"
  else
    match root.lookup (resolvePath cwd p) with
    | some (.dir es) => .ok (es.map (fun e => (e.1, e.2.isDirNode)))
    | some .file => .error "Not a directory (os error 20)"
    | none => .error "No such file or directory (os error 2)"

/-- Models `fs::create_dir`. -/
def osCreateDir (root : FNode) (cwd : List String) (p : String) :
    Except String FNode :=
  if p = "" then .error "No such file or directory (os error 2)"
  else root.createDirAt (resolvePath cwd p)

/-- Models `fs::remove_file`. -/
def osRemoveFile (root : FNode) (cwd : List String) (p : String) :
    Except String FNode :=
  if p = "" then .error "No such file or directory (os error 2)"
  else root.removeFileAt (resolvePath cwd p)

/-- Models `fs::remove_dir_all`. -/
def osRemoveDirAll (root : FNode) (cwd : List String) (p : String) :
    Except String FNode :=
  if p = "" then .error "No such file or directory (os error 2)"
  else root.removeDirAllAt (resolvePath cwd p)

/-- Models `fs::remove_dir`. -/
def osRemoveDir (root : FNode) (cwd : List String) (p : String) :
    Except String FNode :=
  if p = "" then .error "No such file or directory (os error 2)"
  else root.removeDirAt (resolvePath cwd p)

/-- Models `env::set_current_dir`: succeeds exactly when the path resolves to
a directory, in which case the OS current directory becomes that directory;
on failure the current directory is unchanged (the caller keeps the old
value). -/
def osSetCurrentDir (root : FNode) (cwd : List String) (p : String) :
    Except String (List String) :=
  if p = "" then .error "No such file or directory (os error 2)"
  else
    match root.lookup (resolvePath cwd p) with
    | some (.dir _) => .ok (resolvePath cwd p)
    | some .file => .error "Not a directory (os error 20)"
    | none => .error "No such file or directory (os error 2)"

/-- Models `Path::new(cur).join(p)` as used by the GUI front end (the GUI
keeps an absolute `current_dir` string and joins relative arguments onto
it). -/
def guiJoin (cur p : String) : String :=
  if strStartsWith p '/' then p else cur ++ "/" ++ p

/-- Models `fs::canonicalize` on an existing directory path in a model
filesystem without symlinks: the normalised absolute form of the path. -/
def canonicalizeStr (p : String) : String :=
  "/" ++ String.intercalate "/" (splitPath p)

/-! ## CLI front end (main.rs) -/

/-- The order `Vec::<String>::sort` sorts by: Rust compares strings by their
UTF-8 bytes, which coincides with lexicographic order on the code-point
sequence, i.e. on `toList`. -/
def strSortLe : String → String → Prop := fun a b => a.toList ≤ b.toList

instance : DecidableRel strSortLe :=
  fun a b => inferInstanceAs (Decidable (a.toList ≤ b.toList))

instance : IsTotal String strSortLe :=
  ⟨fun a b => IsTotal.total (r := fun x y : List Char => x ≤ y) a.toList b.toList⟩

instance : IsTrans String strSortLe :=
  ⟨fun _ _ _ h h' => le_trans h h'⟩

instance : IsAntisymm String strSortLe := by
  constructor
  intro a b h h'
  have hd : a.toList = b.toList := le_antisymm h h'
  cases a
  cases b
  exact congrArg String.mk hd

/-- Models the CLI completion engine `get_path_completions` (main.rs).
Splits the partial path into a directory part and a name part exactly as the
source does (note: for a bare relative name, Rust `Path::parent` yields
`Some("")`, so the `unwrap_or(Path::new("."))` fallback never applies and
the directory part is the empty string), reads the directory, keeps entries
whose name starts with the name part, rebuilds candidates in the shape of
the original partial string, marks directories with a trailing separator,
and sorts; returns `none` when the directory read fails or nothing
matches. -/
def get_path_completions (root : FNode) (cwd : List String) (part : String) :
    Option (List String) :=
  let pr :=
    if strEndsWithChar part '/' then (part, "")
    else if part = "" then (".", "")
    else ((rustParent part).getD ".", (rustFileName part).getD "")
  let dirPath := pr.1
  let filePre := pr.2
  match osReadDirE root cwd dirPath with
  | .error _ => none
  | .ok entries =>
    let found := entries.filterMap (fun e =>
      if filePre = "" || strHasPrefix filePre e.1 then
        let completion :=
          if dirPath = "." then e.1
          else if strEndsWithChar part '/' then part ++ e.1
          else dirPath ++ "/" ++ e.1
        some (if e.2 then completion ++ "/" else completion)
      else none)
    if found = [] then none
    else some (List.insertionSort strSortLe found)

/-- Models the CLI `change_directory` (main.rs): with no argument the target
is the HOME environment variable (or "/" when unset); delegates to the OS
`set_current_dir`; on failure prints `cd: <arg>: <os error>` and the OS
current directory is unchanged.  Returns the new current directory and the
emitted lines. -/
def change_directory (root : FNode) (cwd : List String) (home : Option String)
    (args : List String) : List String × List String :=
  let newDir := match args with
    | [] => home.getD "/"
    | d :: _ => d
  match osSetCurrentDir root cwd newDir with
  | .ok cwd' => (cwd', [])
  | .error e => (cwd, ["cd: " ++ newDir ++ ": " ++ e])

/-- Models the CLI `handle_cd_with_completion` (main.rs): with no argument,
plain `cd`; when the first argument ends with a literal tab, strips the tabs
and consults the completion engine (one candidate: change directory to it;
several: list them; none: do nothing); otherwise plain `cd`. -/
def handle_cd_with_completion (root : FNode) (cwd : List String)
    (home : Option String) (args : List String) : List String × List String :=
  match args with
  | [] => change_directory root cwd home []
  | path :: _ =>
    if strEndsWithChar path '\t' then
      let pathNoTab := trimEndTabs path
      match get_path_completions root cwd pathNoTab with
      | some comps =>
        match comps with
        | [c] => change_directory root cwd home [c]
        | [] => (cwd, [])
        | _ => (cwd, "Possible completions:" :: comps.map (fun c => "  " ++ c))
      | none => (cwd, [])
    else change_directory root cwd home args

/-- Recognised CLI/GUI `rm` flag characters. -/
def isValidFlag (c : Char) : Bool :=
  c = 'f' || c = 'r' || c = 'R'

/-- Models the inner character loop of the CLI `rm` option parser: the first
unrecognised character aborts with that character. -/
def parseFlagsCLI : List Char → Bool → Bool → Except Char (Bool × Bool)
  | [], force, recursive => .ok (force, recursive)
  | c :: cs, force, recursive =>
    if c = 'f' then parseFlagsCLI cs true recursive
    else if c = 'r' || c = 'R' then parseFlagsCLI cs force true
    else .error c

/-- Models the CLI `rm` argument scan: tokens starting with `-` are parsed
as flags (aborting on the first invalid character), the rest are collected
as targets in order. -/
def parseArgsCLI : List String → Bool → Bool → List String →
    Except Char (Bool × Bool × List String)
  | [], force, recursive, files => .ok (force, recursive, files)
  | a :: rest, force, recursive, files =>
    if strStartsWith a '-' then
      match parseFlagsCLI (a.toList.drop 1) force recursive with
      | .ok fr => parseArgsCLI rest fr.1 fr.2 files
      | .error c => .error c
    else parseArgsCLI rest force recursive (files ++ [a])

/-- Models one iteration of the CLI `rm` deletion loop for a single target. -/
def rmStepCLI (root : FNode) (cwd : List String) (force recursive : Bool)
    (file : String) : FNode × List String :=
  if !(osExists root cwd file) then
    (root, if force then []
      else ["rm: cannot remove \x27" ++ file ++ "\x27: No such file or directory"])
  else if osIsDir root cwd file then
    if recursive then
      match osRemoveDirAll root cwd file with
      | .ok root' => (root', [])
      | .error e =>
        (root, if force then []
          else ["rm: cannot remove \x27" ++ file ++ "\x27: " ++ e])
    else (root, ["rm: cannot remove \x27" ++ file ++ "\x27: Is a directory"])
  else
    match osRemoveFile root cwd file with
    | .ok root' => (root', [])
    | .error e =>
      (root, if force then []
        else ["rm: cannot remove \x27" ++ file ++ "\x27: " ++ e])

/-- Models the CLI `rm` deletion loop over the collected targets. -/
def rmLoopCLI (root : FNode) (cwd : List String) (force recursive : Bool) :
    List String → FNode × List String
  | [] => (root, [])
  | f :: fs =>
    let st := rmStepCLI root cwd force recursive f
    let rest := rmLoopCLI st.1 cwd force recursive fs
    (rest.1, st.2 ++ rest.2)

/-- Models the CLI `remove_files` (main.rs `rm`): empty argument list and
empty target list each report "missing operand"; an invalid option aborts
the whole invocation before any deletion; otherwise each target is deleted
in order with the force/recursive policy. -/
def remove_files (root : FNode) (cwd : List String) (args : List String) :
    FNode × List String :=
  if args = [] then
    (root, ["rm: missing operand", "Try \x27rm --help\x27 for more information."])
  else
    match parseArgsCLI args false false [] with
    | .error c =>
      (root, ["rm: invalid option -- \x27" ++ String.mk [c] ++ "\x27"])
    | .ok frf =>
      if frf.2.2 = [] then (root, ["rm: missing operand"])
      else rmLoopCLI root cwd frf.1 frf.2.1 frf.2.2

/-- Models one iteration of the CLI `mkdir` loop for a single argument. -/
def mkdirStepCLI (root : FNode) (cwd : List String) (dir : String) :
    FNode × List String :=
  if osExists root cwd dir then
    (root, ["mkdir: cannot create directory \x27" ++ dir ++ "\x27: File exists"])
  else
    match osCreateDir root cwd dir with
    | .ok root' => (root', [])
    | .error e =>
      (root, ["mkdir: cannot create directory \x27" ++ dir ++ "\x27: " ++ e])

/-- Models the loop of the CLI `make_directories` over its arguments. -/
def mkdirLoopCLI (root : FNode) (cwd : List String) :
    List String → FNode × List String
  | [] => (root, [])
  | d :: ds =>
    let st := mkdirStepCLI root cwd d
    let rest := mkdirLoopCLI st.1 cwd ds
    (rest.1, st.2 ++ rest.2)

/-- Models the CLI `make_directories` (main.rs `mkdir`). -/
def make_directories (root : FNode) (cwd : List String) (args : List String) :
    FNode × List String :=
  if args = [] then
    (root, ["mkdir: missing operand", "Try \x27mkdir --help\x27 for more information."])
  else mkdirLoopCLI root cwd args

/-- Right-pads a string with spaces to 20 character cells (Rust format
specifier width 20, left alignment). -/
def padRight20 (s : String) : String :=
  s ++ String.mk (List.replicate (20 - s.length) ' ')

/-- Decorates a directory entry for `ls`: directories get a trailing
separator. -/
def decorateEntry (e : String × Bool) : String :=
  if e.2 then e.1 ++ "/" else e.1

/-- Models the CLI `ls` print loop (main.rs): each entry is printed
right-padded to 20 cells, with a newline after every 4th entry; `count` is
the number of entries already printed.  The result is the raw printed
text. -/
def cliLsGo : List String → Nat → String
  | [], _ => ""
  | f :: fs, count =>
    padRight20 f ++ (if (count + 1) % 4 = 0 then "\n" else "") ++
      cliLsGo fs (count + 1)

/-- Models the CLI `list_directory` (main.rs `ls`) as the raw text printed:
reads the target directory (default "."), decorates and sorts the entries,
prints them 4 per row in 20-cell columns, with a final newline when the
last row is partial; an unreadable directory prints a single error line. -/
def list_directory (root : FNode) (cwd : List String) (args : List String) :
    String :=
  let dir := match args with
    | [] => "."
    | d :: _ => d
  match osReadDirE root cwd dir with
  | .error e => "ls: cannot access \x27" ++ dir ++ "\x27: " ++ e ++ "\n"
  | .ok entries =>
    let files := List.insertionSort strSortLe (entries.map decorateEntry)
    cliLsGo files 0 ++ (if files.length % 4 ≠ 0 then "\n" else "")

/-! ## GUI front end (gui.rs) -/

/-- Models `TerminalApp::get_dir_name` (gui.rs): the final path component of
`current_dir`, or "?" when there is none. -/
def get_dir_name (cur : String) : String :=
  (rustFileName cur).getD "?"

/-- Models `TerminalApp::change_directory` (gui.rs): resolves the argument
against `current_dir` (absolute arguments stand alone), and when the result
exists and is a directory, canonicalizes it, stores it and reports
"Changed to: ..."; otherwise reports "cd: <arg>: No such directory" and
leaves `current_dir` unchanged.  (In the model filesystem, canonicalization
of an existing directory path always succeeds, so the canonicalize error
branch of the source is not reachable.) -/
def gui_change_directory (root : FNode) (cur : String) (home : Option String)
    (args : List String) : String × List String :=
  let newDir := match args with
    | [] => home.getD "/"
    | d :: _ => d
  let path := guiJoin cur newDir
  if osExists root [] path && osIsDir root [] path then
    let canonical := canonicalizeStr path
    (canonical, ["Changed to: " ++ canonical])
  else
    (cur, ["cd: " ++ newDir ++ ": No such directory"])

/-- Models the GUI `ls` line-building loop (gui.rs): entries are appended to
the current line right-padded to 20 cells; after every 4th entry the line is
pushed and cleared; a final partial line is pushed if non-empty.  `i` is the
number of entries already processed. -/
def guiLsGo : List String → Nat → String → List String
  | [], _, line => if line = "" then [] else [line]
  | f :: fs, i, line =>
    let line' := line ++ padRight20 f
    if (i + 1) % 4 = 0 then line' :: guiLsGo fs (i + 1) ""
    else guiLsGo fs (i + 1) line'

/-- Models `TerminalApp::list_directory` (gui.rs): resolves the target
(default: `current_dir`) against `current_dir`, reads it, decorates
directories with a trailing separator, sorts, and renders 4 per row in
20-cell columns; an unreadable directory produces a single error line. -/
def gui_list_directory (root : FNode) (cur : String) (args : List String) :
    List String :=
  let dir := match args with
    | [] => cur
    | d :: _ => d
  let path := guiJoin cur dir
  match osReadDirE root [] path with
  | .error e => ["ls: " ++ dir ++ ": " ++ e]
  | .ok entries =>
    let files := List.insertionSort strSortLe (entries.map decorateEntry)
    guiLsGo files 0 ""

/-- Models one iteration of `TerminalApp::make_directory` (gui.rs): no
pre-existence check, the OS result decides the message. -/
def guiMkdirStep (root : FNode) (cur : String) (dir : String) :
    FNode × List String :=
  let path := guiJoin cur dir
  match osCreateDir root [] path with
  | .ok root' => (root', ["Created directory: " ++ dir])
  | .error e => (root, ["mkdir: " ++ dir ++ ": " ++ e])

/-- Models the loop of `TerminalApp::make_directory` over its arguments. -/
def guiMkdirLoop (root : FNode) (cur : String) :
    List String → FNode × List String
  | [] => (root, [])
  | d :: ds =>
    let st := guiMkdirStep root cur d
    let rest := guiMkdirLoop st.1 cur ds
    (rest.1, st.2 ++ rest.2)

/-- Models `TerminalApp::make_directory` (gui.rs `mkdir`). -/
def gui_make_directory (root : FNode) (cur : String) (args : List String) :
    FNode × List String :=
  if args = [] then (root, ["mkdir: missing operand"])
  else guiMkdirLoop root cur args

/-- Models one iteration of `TerminalApp::remove_directory` (gui.rs). -/
def guiRmdirStep (root : FNode) (cur : String) (dir : String) :
    FNode × List String :=
  let path := guiJoin cur dir
  match osRemoveDir root [] path with
  | .ok root' => (root', ["Removed directory: " ++ dir])
  | .error e => (root, ["rmdir: " ++ dir ++ ": " ++ e])

/-- Models the loop of `TerminalApp::remove_directory` over its arguments. -/
def guiRmdirLoop (root : FNode) (cur : String) :
    List String → FNode × List String
  | [] => (root, [])
  | d :: ds =>
    let st := guiRmdirStep root cur d
    let rest := guiRmdirLoop st.1 cur ds
    (rest.1, st.2 ++ rest.2)

/-- Models `TerminalApp::remove_directory` (gui.rs `rmdir`). -/
def gui_remove_directory (root : FNode) (cur : String) (args : List String) :
    FNode × List String :=
  if args = [] then (root, ["rmdir: missing operand"])
  else guiRmdirLoop root cur args

/-- Models the inner character loop of the GUI `rm` option parser:
unrecognised characters are silently ignored. -/
def parseFlagsGUI : List Char → Bool → Bool → Bool × Bool
  | [], force, recursive => (force, recursive)
  | c :: cs, force, recursive =>
    if c = 'f' then parseFlagsGUI cs true recursive
    else if c = 'r' || c = 'R' then parseFlagsGUI cs force true
    else parseFlagsGUI cs force recursive

/-- Models the GUI `rm` argument scan (never aborts). -/
def parseArgsGUI : List String → Bool → Bool → List String →
    Bool × Bool × List String
  | [], force, recursive, files => (force, recursive, files)
  | a :: rest, force, recursive, files =>
    if strStartsWith a '-' then
      let fr := parseFlagsGUI (a.toList.drop 1) force recursive
      parseArgsGUI rest fr.1 fr.2 files
    else parseArgsGUI rest force recursive (files ++ [a])

/-- Models one iteration of the GUI `rm` deletion loop for a single
target. -/
def guiRmStep (root : FNode) (cur : String) (force recursive : Bool)
    (file : String) : FNode × List String :=
  let path := guiJoin cur file
  if !(osExists root [] path) && !force then
    (root, ["rm: " ++ file ++ ": No such file or directory"])
  else if osIsDir root [] path && recursive then
    match osRemoveDirAll root [] path with
    | .ok root' => (root', ["Removed: " ++ file])
    | .error e =>
      if !force then (root, ["rm: " ++ file ++ ": " ++ e]) else (root, [])
  else if osIsFile root [] path then
    match osRemoveFile root [] path with
    | .ok root' => (root', ["Removed: " ++ file])
    | .error e =>
      if !force then (root, ["rm: " ++ file ++ ": " ++ e]) else (root, [])
  else if osIsDir root [] path then
    (root, ["rm: " ++ file ++ ": Is a directory (use -r)"])
  else (root, [])

/-- Models the GUI `rm` deletion loop over the collected targets. -/
def guiRmLoop (root : FNode) (cur : String) (force recursive : Bool) :
    List String → FNode × List String
  | [] => (root, [])
  | f :: fs =>
    let st := guiRmStep root cur force recursive f
    let rest := guiRmLoop st.1 cur force recursive fs
    (rest.1, st.2 ++ rest.2)

/-- Models `TerminalApp::remove_file` (gui.rs `rm`): empty argument list
reports "missing operand"; flags are scanned with unrecognised characters
silently ignored; then each collected target is processed in order. -/
def gui_remove_file (root : FNode) (cur : String) (args : List String) :
    FNode × List String :=
  if args = [] then (root, ["rm: missing operand"])
  else
    let frf := parseArgsGUI args false false []
    guiRmLoop root cur frf.1 frf.2.1 frf.2.2

/-- Static help text of `TerminalApp::show_help` (gui.rs). -/
def guiHelpLines : List String :=
  ["=== Available Commands ===",
   "",
   "File and Directory Operations:",
   "  ls [dir]      - List directory contents",
   "  cd [dir]      - Change directory",
   "  pwd           - Print working directory",
   "  mkdir <dir>   - Create directory",
   "  rmdir <dir>   - Remove empty directory",
   "  rm <file>     - Remove file",
   "    -f          - Force removal",
   "    -r          - Remove directories recursively",
   "",
   "Terminal Control:",
   "  clear         - Clear terminal",
   "  help          - Show this help",
   "  exit/quit     - (Use window close button)",
   "",
   "Shortcuts:",
   "  Up/Down       - Navigate command history",
   "  Ctrl+L        - Clear terminal",
   "  Enter         - Execute command"]

/-- The GUI application state (gui.rs `TerminalApp`; the `auto_scroll`
field, which only affects widget scrolling and is never modified, is
omitted).  The output buffer `VecDeque` is modelled as a list whose head is
the oldest line. -/
structure TerminalApp where
  input : String
  output : List String
  current_dir : String
  command_history : List String
  history_index : Nat

/-- The captured-mode external runner: given command name, arguments and the
working directory, yields the lines the GUI appends for the child process
(stdout lines, then stderr lines prefixed with an error marker, or the
launch-failure line).  The oracle stands for the child process's observable
output. -/
def ExtRunner := String → List String → String → List String

/-- The prompt line `execute_command` pushes before dispatching. -/
def promptLine (cur command : String) : String :=
  get_dir_name cur ++ "> " ++ command

/-- Models `TerminalApp::execute_command` (gui.rs) up to but not including
the final output-trimming loop: pushes the command into the history (when
non-empty) and resets the history index, pushes the prompt line, tokenizes,
and dispatches on the command word.  Returns the updated filesystem and
application state. -/
def execute_command_raw (ext : ExtRunner) (home : Option String)
    (root : FNode) (app : TerminalApp) (command : String) :
    FNode × TerminalApp :=
  let hist := if command ≠ "" then app.command_history ++ [command]
    else app.command_history
  let hidx := if command ≠ "" then app.command_history.length + 1
    else app.history_index
  let out0 := app.output ++ [promptLine app.current_dir command]
  match split_whitespace (rustTrim command) with
  | [] =>
    (root, { app with command_history := hist, history_index := hidx,
                      output := out0 })
  | cmd :: args =>
    let st :=
      if cmd = "exit" || cmd = "quit" then
        (root, app.current_dir, out0 ++ ["Use the window close button to exit"])
      else if cmd = "clear" then
        (root, app.current_dir, ["=== Terminal Cleared ==="])
      else if cmd = "cd" then
        let r := gui_change_directory root app.current_dir home args
        (root, r.1, out0 ++ r.2)
      else if cmd = "pwd" then
        (root, app.current_dir, out0 ++ [app.current_dir])
      else if cmd = "ls" then
        (root, app.current_dir, out0 ++ gui_list_directory root app.current_dir args)
      else if cmd = "mkdir" then
        let r := gui_make_directory root app.current_dir args
        (r.1, app.current_dir, out0 ++ r.2)
      else if cmd = "rmdir" then
        let r := gui_remove_directory root app.current_dir args
        (r.1, app.current_dir, out0 ++ r.2)
      else if cmd = "rm" then
        let r := gui_remove_file root app.current_dir args
        (r.1, app.current_dir, out0 ++ r.2)
      else if cmd = "help" then
        (root, app.current_dir, out0 ++ guiHelpLines)
      else
        (root, app.current_dir, out0 ++ ext cmd args app.current_dir)
    (st.1, { app with command_history := hist, history_index := hidx,
                      current_dir := st.2.1, output := st.2.2 })

/-- Models the trimming loop at the end of `execute_command`: pop the oldest
line while more than 1000 lines are buffered. -/
def trimOutput (l : List String) : List String :=
  if l.length > 1000 then trimOutput l.tail else l
termination_by l.length
decreasing_by
  cases l with
  | nil => simp at *
  | cons a l => simp

/-- Models `TerminalApp::execute_command` (gui.rs) in full: the dispatch
followed by the output-trimming loop.  When the input tokenizes to nothing
the source returns early, before the trimming loop runs. -/
def execute_command (ext : ExtRunner) (home : Option String)
    (root : FNode) (app : TerminalApp) (command : String) :
    FNode × TerminalApp :=
  let st := execute_command_raw ext home root app command
  if split_whitespace (rustTrim command) = [] then st
  else (st.1, { st.2 with output := trimOutput st.2.output })

/-! ## GUI history navigation (gui.rs `update`) -/

/-- The history-relevant projection of the GUI state. -/
structure HistView where
  history : List String
  index : Nat
  input : String

/-- History events: an Up arrow press, a Down arrow press, or a submission
of the current input (Enter key or Execute button, which clears the input
and, when it was non-empty, runs `execute_command`, which appends the line
to the history and resets the index). -/
inductive HistEvent where
  | up : HistEvent
  | down : HistEvent
  | submit : String → HistEvent

/-- Models the history navigation of `TerminalApp::update` (gui.rs) and the
history bookkeeping of `execute_command`. -/
def histStep : HistEvent → HistView → HistView
  | .up, s =>
    if s.index > 0 then
      { s with index := s.index - 1, input := s.history.getD (s.index - 1) "" }
    else s
  | .down, s =>
    if s.index < s.history.length then
      if s.index + 1 = s.history.length then
        { s with index := s.index + 1, input := "" }
      else
        { s with index := s.index + 1, input := s.history.getD (s.index + 1) "" }
    else s
  | .submit cmd, s =>
    if cmd ≠ "" then
      { history := s.history ++ [cmd], index := s.history.length + 1, input := "" }
    else { s with input := "" }

/-! ## Derived rendering forms and spec-side models -/

/-- Appends the 20-cell padded forms of a row of entries to an accumulated
line (the row-building step both `ls` loops perform). -/
def lsRowString : List String → String → String
  | [], acc => acc
  | f :: fs, acc => lsRowString fs (acc ++ padRight20 f)

/-- Row-chunked form of the `ls` rendering: lines of 4 entries, each entry
right-padded to 20 cells, the last line possibly shorter. -/
def lsRenderSpec : List String → List String
  | [] => []
  | f :: fs => lsRowString ((f :: fs).take 4) "" :: lsRenderSpec ((f :: fs).drop 4)
termination_by l => l.length
decreasing_by
  simp [List.length_drop]
  omega

/-- Joins lines with a newline terminator after each line (the shape of the
CLI terminal text corresponding to a line list). -/
def joinLinesNl : List String → String
  | [] => ""
  | l :: ls => l ++ "\n" ++ joinLinesNl ls

/-- Modelled from the spec: the CompletionEngine contract of section 4.2.
Splits the partial path into a directory part (the parent segment of the
partial, or "." when there is none) and a name prefix, lists the directory
(empty result when unreadable), keeps entries whose name starts with the
prefix, rebuilds candidates preserving the partial's shape with a trailing
separator on directories, and sorts lexicographically.  This is the
spec's description of `get_path_completions`, used to exhibit where the
source deviates from it. -/
def completeSpec (root : FNode) (cwd : List String) (part : String) :
    List String :=
  let pr :=
    if strEndsWithChar part '/' then (part, "")
    else if part = "" then (".", "")
    else
      (match rustParent part with
       | some p => if p = "" then "." else p
       | none => ".",
       (rustFileName part).getD "")
  let dirPath := pr.1
  let namePre := pr.2
  match osReadDirE root cwd dirPath with
  | .error _ => []
  | .ok entries =>
    let found := entries.filterMap (fun e =>
      if namePre = "" || strHasPrefix namePre e.1 then
        let completion :=
          if dirPath = "." then e.1
          else if strEndsWithChar part '/' then part ++ e.1
          else dirPath ++ "/" ++ e.1
        some (if e.2 then completion ++ "/" else completion)
      else none)
    List.insertionSort strSortLe found

/-- The base directory of claim C1: an entry `src` (a directory) and an
entry `srv.txt` (a regular file). -/
def rootC1 : FNode :=
  FNode.dir [("src", FNode.dir []), ("srv.txt", FNode.file)]

/-- External runner producing no output (used for closed counterexamples). -/
def extSilent : ExtRunner := fun _ _ _ => []

/-- A GUI state whose output buffer already holds exactly 1000 lines. -/
def appAtBound : TerminalApp :=
  { input := "", output := List.replicate 1000 "x", current_dir := "/",
    command_history := [], history_index := 0 }

/-! ## Filesystem lemmas -/

theorem FNode.lookup_append (p q : List String) : ∀ (node : FNode),
    node.lookup (p ++ q) = (node.lookup p).bind (fun m => m.lookup q) := by
  induction p with
  | nil =>
    intro node
    simp [FNode.lookup]
  | cons s rest ih =>
    intro node
    cases node with
    | file => simp [FNode.lookup]
    | dir es =>
      simp only [List.cons_append, FNode.lookup]
      cases lookupEntry es s with
      | none => simp
      | some child => simpa using ih child

theorem lookupEntry_append_nomatch (x : String) (n : FNode) :
    ∀ (es : List (String × FNode)), lookupEntry es x = none →
    lookupEntry (es ++ [(x, n)]) x = some n := by
  intro es
  induction es with
  | nil => intro _; simp [lookupEntry]
  | cons e es ih =>
    intro h
    obtain ⟨k, v⟩ := e
    by_cases hk : k = x
    · simp [lookupEntry, hk] at h
    · simp only [lookupEntry, List.cons_append, if_neg hk] at h ⊢
      exact ih h

theorem lookupEntry_setEntry_self (s : String) (c : FNode) :
    ∀ (es : List (String × FNode)), (lookupEntry es s).isSome →
    lookupEntry (setEntry es s c) s = some c := by
  intro es
  induction es with
  | nil => intro h; simp [lookupEntry] at h
  | cons e es ih =>
    intro h
    obtain ⟨k, v⟩ := e
    by_cases hk : k = s
    · subst hk
      simp only [setEntry, List.map_cons]
      simp [lookupEntry]
    · simp only [lookupEntry, if_neg hk] at h
      simp only [setEntry, List.map_cons]
      rw [show (if (k, v).1 = s then (s, c) else (k, v)) = (k, v) from if_neg hk]
      simp only [lookupEntry, if_neg hk]
      exact ih h

theorem createDirAt_fresh : ∀ (path : List String) (node : FNode)
    (es : List (String × FNode)) (x : String),
    node.lookup path = some (.dir es) → lookupEntry es x = none →
    ∃ node', node.createDirAt (path ++ [x]) = .ok node' ∧
      node'.lookup path = some (.dir (es ++ [(x, FNode.dir [])])) := by
  intro path
  induction path with
  | nil =>
    intro node es x h hx
    simp only [FNode.lookup] at h
    cases h
    exact ⟨.dir (es ++ [(x, .dir [])]), by simp [FNode.createDirAt, hx],
      by simp [FNode.lookup]⟩
  | cons s rest ih =>
    intro node es x h hx
    cases node with
    | file => simp [FNode.lookup] at h
    | dir es0 =>
      simp only [FNode.lookup] at h
      cases hle : lookupEntry es0 s with
      | none => rw [hle] at h; simp at h
      | some child =>
        rw [hle] at h
        obtain ⟨child', hc1, hc2⟩ := ih child es x h hx
        obtain ⟨y, ys, hys⟩ : ∃ y ys, rest ++ [x] = y :: ys := by
          cases rest <;> exact ⟨_, _, rfl⟩
        refine ⟨.dir (setEntry es0 s child'), ?_, ?_⟩
        · show FNode.createDirAt (.dir es0) (s :: (rest ++ [x])) = _
          rw [hys]
          simp only [FNode.createDirAt, hle]
          rw [← hys, hc1]
        · simp only [FNode.lookup,
            lookupEntry_setEntry_self s child' es0 (by simp [hle])]
          exact hc2

theorem createDirAt_exists : ∀ (path : List String) (node : FNode)
    (es : List (String × FNode)) (x : String),
    node.lookup path = some (.dir es) → (lookupEntry es x).isSome →
    node.createDirAt (path ++ [x]) = .error "File exists (os error 17)" := by
  intro path
  induction path with
  | nil =>
    intro node es x h hx
    simp only [FNode.lookup] at h
    cases h
    cases hle : lookupEntry es x with
    | none => rw [hle] at hx; simp at hx
    | some v => simp [FNode.createDirAt, hle]
  | cons s rest ih =>
    intro node es x h hx
    cases node with
    | file => simp [FNode.lookup] at h
    | dir es0 =>
      simp only [FNode.lookup] at h
      cases hle : lookupEntry es0 s with
      | none => rw [hle] at h; simp at h
      | some child =>
        rw [hle] at h
        obtain ⟨y, ys, hys⟩ : ∃ y ys, rest ++ [x] = y :: ys := by
          cases rest <;> exact ⟨_, _, rfl⟩
        show FNode.createDirAt (.dir es0) (s :: (rest ++ [x])) = _
        rw [hys]
        simp only [FNode.createDirAt, hle]
        rw [← hys, ih child es x h hx]

/-! ## Option-parsing lemmas for `rm` -/

/-- An argument list contains an option token with an unrecognised flag
character. -/
def hasInvalidOption (args : List String) : Prop :=
  ∃ a ∈ args, strStartsWith a '-' = true ∧
    ∃ c ∈ a.toList.drop 1, isValidFlag c = false

theorem parseFlagsCLI_cons_f (cs : List Char) (f r : Bool) :
    parseFlagsCLI ('f' :: cs) f r = parseFlagsCLI cs true r := by
  simp [parseFlagsCLI]

theorem parseFlagsCLI_cons_r (cs : List Char) (f r : Bool) :
    parseFlagsCLI ('r' :: cs) f r = parseFlagsCLI cs f true := by
  simp [parseFlagsCLI]

theorem parseFlagsCLI_cons_R (cs : List Char) (f r : Bool) :
    parseFlagsCLI ('R' :: cs) f r = parseFlagsCLI cs f true := by
  simp [parseFlagsCLI]

theorem parseFlagsCLI_cons_inv (c : Char) (cs : List Char) (f r : Bool)
    (h : isValidFlag c = false) : parseFlagsCLI (c :: cs) f r = .error c := by
  simp only [isValidFlag, Bool.or_eq_false_iff, decide_eq_false_iff_not] at h
  simp [parseFlagsCLI, h.1.1, h.1.2, h.2]

theorem parseFlagsGUI_cons_f (cs : List Char) (f r : Bool) :
    parseFlagsGUI ('f' :: cs) f r = parseFlagsGUI cs true r := by
  simp [parseFlagsGUI]

theorem parseFlagsGUI_cons_r (cs : List Char) (f r : Bool) :
    parseFlagsGUI ('r' :: cs) f r = parseFlagsGUI cs f true := by
  simp [parseFlagsGUI]

theorem parseFlagsGUI_cons_R (cs : List Char) (f r : Bool) :
    parseFlagsGUI ('R' :: cs) f r = parseFlagsGUI cs f true := by
  simp [parseFlagsGUI]

theorem parseFlagsGUI_cons_inv (c : Char) (cs : List Char) (f r : Bool)
    (h : isValidFlag c = false) : parseFlagsGUI (c :: cs) f r = parseFlagsGUI cs f r := by
  simp only [isValidFlag, Bool.or_eq_false_iff, decide_eq_false_iff_not] at h
  simp [parseFlagsGUI, h.1.1, h.1.2, h.2]

theorem parseArgsCLI_cons_opt (a : String) (rest : List String) (f r : Bool)
    (files : List String) (hopt : strStartsWith a '-' = true) :
    parseArgsCLI (a :: rest) f r files =
      match parseFlagsCLI (a.toList.drop 1) f r with
      | .ok fr => parseArgsCLI rest fr.1 fr.2 files
      | .error c => .error c := by
  simp only [parseArgsCLI, if_pos hopt]

theorem parseArgsCLI_cons_file (a : String) (rest : List String) (f r : Bool)
    (files : List String) (hopt : ¬ strStartsWith a '-' = true) :
    parseArgsCLI (a :: rest) f r files =
      parseArgsCLI rest f r (files ++ [a]) := by
  simp only [parseArgsCLI, if_neg hopt]

theorem parseArgsGUI_cons_opt (a : String) (rest : List String) (f r : Bool)
    (files : List String) (hopt : strStartsWith a '-' = true) :
    parseArgsGUI (a :: rest) f r files =
      parseArgsGUI rest (parseFlagsGUI (a.toList.drop 1) f r).1
        (parseFlagsGUI (a.toList.drop 1) f r).2 files := by
  simp only [parseArgsGUI, if_pos hopt]

theorem parseArgsGUI_cons_file (a : String) (rest : List String) (f r : Bool)
    (files : List String) (hopt : ¬ strStartsWith a '-' = true) :
    parseArgsGUI (a :: rest) f r files =
      parseArgsGUI rest f r (files ++ [a]) := by
  simp only [parseArgsGUI, if_neg hopt]

theorem parseFlagsCLI_ok_of_valid : ∀ (cs : List Char) (f r : Bool),
    (∀ c ∈ cs, isValidFlag c = true) →
    ∃ fr, parseFlagsCLI cs f r = .ok fr := by
  intro cs
  induction cs with
  | nil => intro f r _; exact ⟨(f, r), rfl⟩
  | cons c cs ih =>
    intro f r h
    have hc := h c (by simp)
    have hrest : ∀ d ∈ cs, isValidFlag d = true := fun d hd => h d (by simp [hd])
    simp only [isValidFlag, Bool.or_eq_true, decide_eq_true_eq] at hc
    rcases hc with (h1 | h1) | h1 <;> subst h1
    · rw [parseFlagsCLI_cons_f]; exact ih _ _ hrest
    · rw [parseFlagsCLI_cons_r]; exact ih _ _ hrest
    · rw [parseFlagsCLI_cons_R]; exact ih _ _ hrest

theorem parseFlagsCLI_error_of_invalid : ∀ (cs : List Char) (f r : Bool),
    (∃ c ∈ cs, isValidFlag c = false) →
    ∃ c, parseFlagsCLI cs f r = .error c ∧ isValidFlag c = false := by
  intro cs
  induction cs with
  | nil => intro f r h; simp at h
  | cons c cs ih =>
    intro f r h
    cases hv : isValidFlag c with
    | false => exact ⟨c, parseFlagsCLI_cons_inv c cs f r hv, hv⟩
    | true =>
      have hrest : ∃ d ∈ cs, isValidFlag d = false := by
        rcases h with ⟨d, hd, hdf⟩
        rcases List.mem_cons.mp hd with rfl | hmem
        · rw [hv] at hdf; cases hdf
        · exact ⟨d, hmem, hdf⟩
      have hc := hv
      simp only [isValidFlag, Bool.or_eq_true, decide_eq_true_eq] at hc
      rcases hc with (h1 | h1) | h1 <;> subst h1
      · rw [parseFlagsCLI_cons_f]; exact ih _ _ hrest
      · rw [parseFlagsCLI_cons_r]; exact ih _ _ hrest
      · rw [parseFlagsCLI_cons_R]; exact ih _ _ hrest

theorem parseArgsCLI_error_of_invalid : ∀ (args : List String) (f r : Bool)
    (files : List String), hasInvalidOption args →
    ∃ c, parseArgsCLI args f r files = .error c ∧ isValidFlag c = false := by
  intro args
  induction args with
  | nil =>
    intro f r files h
    rcases h with ⟨a, ha, _⟩
    simp at ha
  | cons a rest ih =>
    intro f r files h
    by_cases hopt : strStartsWith a '-' = true
    · by_cases hbad : ∃ c ∈ a.toList.drop 1, isValidFlag c = false
      · obtain ⟨c, hc1, hc2⟩ :=
          parseFlagsCLI_error_of_invalid (a.toList.drop 1) f r hbad
        refine ⟨c, ?_, hc2⟩
        rw [parseArgsCLI_cons_opt a rest f r files hopt, hc1]
      · have hval : ∀ c ∈ a.toList.drop 1, isValidFlag c = true := by
          intro c hcm
          cases hv : isValidFlag c
          · exact absurd ⟨c, hcm, hv⟩ hbad
          · rfl
        obtain ⟨fr', hfr⟩ := parseFlagsCLI_ok_of_valid (a.toList.drop 1) f r hval
        have hrest : hasInvalidOption rest := by
          rcases h with ⟨b, hb, hbs, hbc⟩
          rcases List.mem_cons.mp hb with rfl | hmem
          · exact absurd hbc hbad
          · exact ⟨b, hmem, hbs, hbc⟩
        obtain ⟨c, hc1, hc2⟩ := ih fr'.1 fr'.2 files hrest
        refine ⟨c, ?_, hc2⟩
        rw [parseArgsCLI_cons_opt a rest f r files hopt, hfr]
        exact hc1
    · have hrest : hasInvalidOption rest := by
        rcases h with ⟨b, hb, hbs, hbc⟩
        rcases List.mem_cons.mp hb with rfl | hmem
        · exact absurd hbs hopt
        · exact ⟨b, hmem, hbs, hbc⟩
      obtain ⟨c, hc1, hc2⟩ := ih f r (files ++ [a]) hrest
      refine ⟨c, ?_, hc2⟩
      rw [parseArgsCLI_cons_file a rest f r files hopt, hc1]

theorem parseArgsCLI_ok_all_opts : ∀ (args : List String) (f r : Bool)
    (files : List String),
    (∀ a ∈ args, strStartsWith a '-' = true) →
    (∀ a ∈ args, ∀ c ∈ a.toList.drop 1, isValidFlag c = true) →
    ∃ fr : Bool × Bool, parseArgsCLI args f r files = .ok (fr.1, fr.2, files) := by
  intro args
  induction args with
  | nil => intro f r files _ _; exact ⟨(f, r), rfl⟩
  | cons a rest ih =>
    intro f r files hopt hval
    obtain ⟨fr', hfr⟩ := parseFlagsCLI_ok_of_valid (a.toList.drop 1) f r
      (hval a (by simp))
    have hopt' : ∀ b ∈ rest, strStartsWith b '-' = true :=
      fun b hb => hopt b (by simp [hb])
    have hval' : ∀ b ∈ rest, ∀ c ∈ b.toList.drop 1, isValidFlag c = true :=
      fun b hb => hval b (by simp [hb])
    obtain ⟨fr'', hfr''⟩ := ih fr'.1 fr'.2 files hopt' hval'
    refine ⟨fr'', ?_⟩
    rw [parseArgsCLI_cons_opt a rest f r files (hopt a (by simp)), hfr]
    exact hfr''

theorem parseFlagsGUI_filter : ∀ (cs : List Char) (f r : Bool),
    parseFlagsGUI cs f r = parseFlagsGUI (cs.filter isValidFlag) f r := by
  intro cs
  induction cs with
  | nil => intro f r; rfl
  | cons c cs ih =>
    intro f r
    cases hv : isValidFlag c with
    | false =>
      rw [parseFlagsGUI_cons_inv c cs f r hv,
        List.filter_cons_of_neg (by simp [hv])]
      exact ih f r
    | true =>
      rw [List.filter_cons_of_pos (by simp [hv])]
      have hc := hv
      simp only [isValidFlag, Bool.or_eq_true, decide_eq_true_eq] at hc
      rcases hc with (h1 | h1) | h1 <;> subst h1
      · rw [parseFlagsGUI_cons_f, parseFlagsGUI_cons_f]; exact ih true r
      · rw [parseFlagsGUI_cons_r, parseFlagsGUI_cons_r]; exact ih f true
      · rw [parseFlagsGUI_cons_R, parseFlagsGUI_cons_R]; exact ih f true

theorem parseArgsGUI_files : ∀ (args : List String) (f r : Bool)
    (files : List String),
    (parseArgsGUI args f r files).2.2 =
      files ++ args.filter (fun a => !(strStartsWith a '-')) := by
  intro args
  induction args with
  | nil => intro f r files; simp [parseArgsGUI]
  | cons a rest ih =>
    intro f r files
    by_cases hopt : strStartsWith a '-' = true
    · rw [List.filter_cons_of_neg (by simp [hopt])]
      rw [parseArgsGUI_cons_opt a rest f r files hopt]
      exact ih _ _ files
    · rw [List.filter_cons_of_pos (by simp [Bool.eq_false_iff.mpr hopt])]
      rw [parseArgsGUI_cons_file a rest f r files hopt]
      rw [ih f r (files ++ [a])]
      simp

/-! ## Rendering lemmas for `ls` -/

set_option maxRecDepth 4000

theorem padRight20_length (s : String) : (padRight20 s).length = max 20 s.length := by
  show (s ++ String.mk (List.replicate (20 - s.length) ' ')).length = _
  rw [String.length_append]
  have h : (String.mk (List.replicate (20 - s.length) ' ')).length =
      (List.replicate (20 - s.length) ' ').length := rfl
  rw [h, List.length_replicate]
  omega

theorem padRight20_ne_empty (s : String) : padRight20 s ≠ "" := by
  intro h
  have h0 : (padRight20 s).length = 0 := by rw [h]; rfl
  rw [padRight20_length] at h0
  omega

theorem strApp_ne_empty (a b : String) (hb : b ≠ "") : a ++ b ≠ "" := by
  intro h
  have h0 : (a ++ b).length = 0 := by rw [h]; rfl
  rw [String.length_append] at h0
  apply hb
  cases b with
  | mk d =>
    cases d with
    | nil => rfl
    | cons x xs =>
      have hx : (String.mk (x :: xs)).length = xs.length + 1 := rfl
      exact absurd h0 (by omega)

theorem lsRenderSpec_cons (f : String) (fs : List String) :
    lsRenderSpec (f :: fs) =
      lsRowString ((f :: fs).take 4) "" :: lsRenderSpec ((f :: fs).drop 4) := by
  rw [lsRenderSpec]

theorem guiLsGo_eq : ∀ (n : Nat) (l : List String) (i : Nat) (pre : String),
    l.length ≤ n → i % 4 = 0 →
    guiLsGo l i pre =
      match l with
      | [] => if pre = "" then [] else [pre]
      | _ :: _ => lsRowString (l.take 4) pre :: lsRenderSpec (l.drop 4) := by
  intro n
  induction n with
  | zero =>
    intro l i pre hl _
    rcases l with _ | ⟨a, l⟩
    · simp [guiLsGo]
    · simp at hl
  | succ n ih =>
    intro l i pre hl hi
    have h1 : ¬((i + 1) % 4 = 0) := by omega
    have h2 : ¬((i + 1 + 1) % 4 = 0) := by omega
    have h3 : ¬((i + 1 + 1 + 1) % 4 = 0) := by omega
    have h4 : (i + 1 + 1 + 1 + 1) % 4 = 0 := by omega
    rcases l with _ | ⟨a, _ | ⟨b, _ | ⟨c, _ | ⟨d, rest⟩⟩⟩⟩
    · simp [guiLsGo]
    · simp only [guiLsGo, if_neg h1]
      rw [if_neg (strApp_ne_empty _ _ (padRight20_ne_empty a))]
      simp [lsRowString, lsRenderSpec]
    · simp only [guiLsGo, if_neg h1, if_neg h2]
      rw [if_neg (strApp_ne_empty _ _ (padRight20_ne_empty b))]
      simp [lsRowString, lsRenderSpec]
    · simp only [guiLsGo, if_neg h1, if_neg h2, if_neg h3]
      rw [if_neg (strApp_ne_empty _ _ (padRight20_ne_empty c))]
      simp [lsRowString, lsRenderSpec]
    · have hrest : rest.length ≤ n := by
        simp only [List.length_cons] at hl
        omega
      have ihr := ih rest (i + 1 + 1 + 1 + 1) "" hrest h4
      simp only [guiLsGo, if_neg h1, if_neg h2, if_neg h3, if_pos h4]
      rw [ihr]
      rcases rest with _ | ⟨x, xs⟩
      · simp [lsRowString, lsRenderSpec]
      · simp [lsRowString, lsRenderSpec_cons]

theorem guiLsGo_render (l : List String) : guiLsGo l 0 "" = lsRenderSpec l := by
  have h := guiLsGo_eq l.length l 0 "" le_rfl (by omega)
  rcases l with _ | ⟨a, l⟩
  · simpa [lsRenderSpec] using h
  · rw [h, lsRenderSpec]

theorem cliLsGo_eq : ∀ (n : Nat) (l : List String) (i : Nat),
    l.length ≤ n → i % 4 = 0 →
    cliLsGo l i ++ (if l.length % 4 ≠ 0 then "\n" else "") =
      joinLinesNl (lsRenderSpec l) := by
  intro n
  induction n with
  | zero =>
    intro l i hl _
    rcases l with _ | ⟨a, l⟩
    · simp [cliLsGo, lsRenderSpec, joinLinesNl]
    · simp at hl
  | succ n ih =>
    intro l i hl hi
    have h1 : ¬((i + 1) % 4 = 0) := by omega
    have h2 : ¬((i + 1 + 1) % 4 = 0) := by omega
    have h3 : ¬((i + 1 + 1 + 1) % 4 = 0) := by omega
    have h4 : (i + 1 + 1 + 1 + 1) % 4 = 0 := by omega
    rcases l with _ | ⟨a, _ | ⟨b, _ | ⟨c, _ | ⟨d, rest⟩⟩⟩⟩
    · simp [cliLsGo, lsRenderSpec, joinLinesNl]
    · simp only [cliLsGo, if_neg h1]
      simp [lsRenderSpec, lsRowString, joinLinesNl, String.append_assoc]
    · simp only [cliLsGo, if_neg h1, if_neg h2]
      simp [lsRenderSpec, lsRowString, joinLinesNl, String.append_assoc]
    · simp only [cliLsGo, if_neg h1, if_neg h2, if_neg h3]
      simp [lsRenderSpec, lsRowString, joinLinesNl, String.append_assoc]
    · have hrest : rest.length ≤ n := by
        simp only [List.length_cons] at hl
        omega
      have ihr := ih rest (i + 1 + 1 + 1 + 1) hrest h4
      simp only [cliLsGo, if_neg h1, if_neg h2, if_neg h3, if_pos h4]
      rw [lsRenderSpec_cons]
      have hlen : (a :: b :: c :: d :: rest : List String).length % 4 =
          rest.length % 4 := by
        simp only [List.length_cons]
        omega
      simp only [hlen]
      rw [joinLinesNl]
      have hdrop : (a :: b :: c :: d :: rest : List String).drop 4 = rest := rfl
      have htake : (a :: b :: c :: d :: rest : List String).take 4 = [a, b, c, d] := rfl
      rw [hdrop, htake, ← ihr]
      simp [lsRowString, String.append_assoc]

/-- Chunks a list into consecutive runs of 4 (last chunk possibly shorter). -/
def chunk4 : List String → List (List String)
  | [] => []
  | f :: fs => ((f :: fs).take 4) :: chunk4 ((f :: fs).drop 4)
termination_by l => l.length
decreasing_by
  simp [List.length_drop]
  omega

theorem lsRenderSpec_eq_chunk : ∀ (n : Nat) (l : List String), l.length ≤ n →
    lsRenderSpec l = (chunk4 l).map (fun row => lsRowString row "") := by
  intro n
  induction n with
  | zero =>
    intro l hl
    rcases l with _ | ⟨a, l⟩
    · simp [lsRenderSpec, chunk4]
    · simp at hl
  | succ n ih =>
    intro l hl
    rcases l with _ | ⟨a, l⟩
    · simp [lsRenderSpec, chunk4]
    · have hd : ((a :: l).drop 4).length ≤ n := by
        simp only [List.length_cons] at hl
        simp [List.length_drop]
        omega
      rw [lsRenderSpec, chunk4, List.map_cons, ih ((a :: l).drop 4) hd]

theorem chunk4_flatten : ∀ (n : Nat) (l : List String), l.length ≤ n →
    (chunk4 l).flatten = l := by
  intro n
  induction n with
  | zero =>
    intro l hl
    rcases l with _ | ⟨a, l⟩
    · simp [chunk4]
    · simp at hl
  | succ n ih =>
    intro l hl
    rcases l with _ | ⟨a, l⟩
    · simp [chunk4]
    · have hd : ((a :: l).drop 4).length ≤ n := by
        simp only [List.length_cons] at hl
        simp [List.length_drop]
        omega
      rw [chunk4, List.flatten_cons, ih ((a :: l).drop 4) hd]
      exact List.take_append_drop 4 (a :: l)

theorem chunk4_bounds : ∀ (n : Nat) (l : List String), l.length ≤ n →
    ∀ row ∈ chunk4 l, row ≠ [] ∧ row.length ≤ 4 := by
  intro n
  induction n with
  | zero =>
    intro l hl row hrow
    rcases l with _ | ⟨a, l⟩
    · simp [chunk4] at hrow
    · simp at hl
  | succ n ih =>
    intro l hl row hrow
    rcases l with _ | ⟨a, l⟩
    · simp [chunk4] at hrow
    · have hd : ((a :: l).drop 4).length ≤ n := by
        simp only [List.length_cons] at hl
        simp [List.length_drop]
        omega
      rw [chunk4] at hrow
      rcases List.mem_cons.mp hrow with rfl | hmem
      · have htake : (a :: l).take 4 = a :: l.take 3 := rfl
        refine ⟨by simp [htake], ?_⟩
        simp
      · exact ih _ hd row hmem

/-! ## Output-trimming lemmas -/

theorem trimOutput_eq_drop : ∀ (n : Nat) (l : List String), l.length ≤ n →
    trimOutput l = l.drop (l.length - 1000) := by
  intro n
  induction n with
  | zero =>
    intro l hl
    rw [trimOutput]
    rw [if_neg (by omega)]
    have h0 : l.length - 1000 = 0 := by omega
    rw [h0]
    simp
  | succ n ih =>
    intro l hl
    rw [trimOutput]
    by_cases h : l.length > 1000
    · rw [if_pos h]
      have htl : l.tail.length = l.length - 1 := by
        rcases l with _ | ⟨x, xs⟩
        · simp at h
        · simp
      rw [ih l.tail (by omega)]
      rw [htl]
      rw [show l.tail = l.drop 1 from (List.drop_one l).symm]
      rw [List.drop_drop]
      have harith : l.length - 1 - 1000 + 1 = l.length - 1000 := by omega
      have harith' : 1 + (l.length - 1 - 1000) = l.length - 1000 := by omega
      first
      | rw [harith]
      | rw [harith']
    · rw [if_neg h]
      have h0 : l.length - 1000 = 0 := by omega
      rw [h0]
      simp

/-! ## Small helper lemmas about the OS predicates -/

theorem resolvePath_nil (p : String) : resolvePath [] p = splitPath p := by
  unfold resolvePath
  by_cases h : strStartsWith p '/' = true
  · rw [if_pos h]
  · rw [if_neg h]
    simp

theorem osIsDir_of_not_exists (root : FNode) (cwd : List String) (p : String)
    (h : osExists root cwd p = false) : osIsDir root cwd p = false := by
  unfold osExists at h
  unfold osIsDir
  cases hb : (p != "") with
  | false => rfl
  | true =>
    rw [hb, Bool.true_and] at h
    rw [Bool.true_and]
    cases hl : root.lookup (resolvePath cwd p) with
    | none => rfl
    | some v =>
      rw [hl] at h
      exact Bool.noConfusion h

theorem osIsFile_of_not_exists (root : FNode) (cwd : List String) (p : String)
    (h : osExists root cwd p = false) : osIsFile root cwd p = false := by
  unfold osExists at h
  unfold osIsFile
  cases hb : (p != "") with
  | false => rfl
  | true =>
    rw [hb, Bool.true_and] at h
    rw [Bool.true_and]
    cases hl : root.lookup (resolvePath cwd p) with
    | none => rfl
    | some v =>
      rw [hl] at h
      exact Bool.noConfusion h

/-! ## Claim theorems -/

/-- Claim C1 (code bug): for a completion request on the partial path "sr"
against a base directory containing exactly `src` (a directory) and
`srv.txt` (a regular file), the claim says the engine returns exactly
["src/", "srv.txt"].  The source instead returns no candidates at all:
`Path::new("sr").parent()` is `Some("")`, so the `unwrap_or(Path::new("."))`
fallback never applies, the directory part becomes the empty string, and
`fs::read_dir("")` fails, making `get_path_completions` return `None`.  The
engine modelled from the spec's own algorithm (parent segment or "." when
there is none) returns the two claimed candidates, witnessing the intended
behaviour. -/
theorem c1_completion_of_sr :
    get_path_completions rootC1 [] "sr" = none ∧
    completeSpec rootC1 [] "sr" = ["src/", "srv.txt"] ∧
    rustParent "sr" = some "" := by
  refine ⟨rfl, rfl, rfl⟩

/-- Claim C2: when the first `cd` argument ends with a literal tab, the
stripped argument is completed; exactly one candidate changes directory
using that candidate, two or more candidates are listed with the current
directory unchanged, and no candidates produce no output and no change. -/
theorem c2_cd_tab_completion (root : FNode) (cwd : List String)
    (home : Option String) (arg : String) (rest : List String)
    (h : strEndsWithChar arg '\t' = true) :
    (∀ c, get_path_completions root cwd (trimEndTabs arg) = some [c] →
      handle_cd_with_completion root cwd home (arg :: rest) =
        change_directory root cwd home [c]) ∧
    (∀ c0 c1 cs,
      get_path_completions root cwd (trimEndTabs arg) = some (c0 :: c1 :: cs) →
      handle_cd_with_completion root cwd home (arg :: rest) =
        (cwd, "Possible completions:" ::
          (c0 :: c1 :: cs).map (fun c => "  " ++ c))) ∧
    (get_path_completions root cwd (trimEndTabs arg) = none →
      handle_cd_with_completion root cwd home (arg :: rest) = (cwd, [])) := by
  refine ⟨?_, ?_, ?_⟩
  · intro c hc
    simp only [handle_cd_with_completion, if_pos h, hc]
  · intro c0 c1 cs hc
    simp only [handle_cd_with_completion, if_pos h, hc]
  · intro hc
    simp only [handle_cd_with_completion, if_pos h, hc]

/-- Witness for C2: completing `cd d/<TAB>` in a filesystem where directory
`d` holds a single directory `a` yields the single candidate "d/a/" and
performs the directory change with it. -/
theorem c2_witness :
    handle_cd_with_completion (FNode.dir [("d", FNode.dir [("a", FNode.dir [])])])
      [] (some "/") ["d/\t"] =
    change_directory (FNode.dir [("d", FNode.dir [("a", FNode.dir [])])])
      [] (some "/") ["d/a/"] :=
  (c2_cd_tab_completion _ [] (some "/") "d/\t" [] (by decide)).1 "d/a/" (by rfl)

/-- Claim C3: a CLI `rm` invocation containing an option token with an
unrecognised flag character aborts before any filesystem mutation, reporting
the invalid option (so no target is deleted, not even targets listed before
the bad option); the GUI `rm` flag scanner instead silently ignores
unrecognised flag characters (its result only depends on the recognised
characters) and goes on to process every non-option token as a target. -/
theorem c3_rm_invalid_option (root : FNode) (cwd : List String)
    (args : List String) (h : hasInvalidOption args) :
    (∃ c, isValidFlag c = false ∧
      remove_files root cwd args =
        (root, ["rm: invalid option -- \x27" ++ String.mk [c] ++ "\x27"])) ∧
    (∀ (cs : List Char) (f r : Bool),
      parseFlagsGUI cs f r = parseFlagsGUI (cs.filter isValidFlag) f r) ∧
    (∀ (gargs : List String) (f r : Bool) (files : List String),
      (parseArgsGUI gargs f r files).2.2 =
        files ++ gargs.filter (fun a => !(strStartsWith a '-'))) ∧
    (∀ cur : String, gui_remove_file root cur args =
      guiRmLoop root cur (parseArgsGUI args false false []).1
        (parseArgsGUI args false false []).2.1
        (args.filter (fun a => !(strStartsWith a '-')))) := by
  have hargsne : args ≠ [] := by
    rcases h with ⟨a, ha, _⟩
    intro he
    rw [he] at ha
    simp at ha
  obtain ⟨c, hc1, hc2⟩ := parseArgsCLI_error_of_invalid args false false [] h
  refine ⟨⟨c, hc2, ?_⟩, parseFlagsGUI_filter, parseArgsGUI_files, ?_⟩
  · simp only [remove_files, if_neg hargsne, hc1]
  · intro cur
    have hf := parseArgsGUI_files args false false []
    rw [List.nil_append] at hf
    simp only [gui_remove_file, if_neg hargsne]
    rw [← hf]

/-- Witness for C3: `rm a -x` with an existing file `a` aborts with the
invalid-option report for 'x' and deletes nothing. -/
theorem c3_witness :
    ∃ c, isValidFlag c = false ∧
      remove_files (FNode.dir [("a", FNode.file)]) [] ["a", "-x"] =
        (FNode.dir [("a", FNode.file)],
          ["rm: invalid option -- \x27" ++ String.mk [c] ++ "\x27"]) :=
  (c3_rm_invalid_option (FNode.dir [("a", FNode.file)]) [] ["a", "-x"]
    (by unfold hasInvalidOption; decide)).1

/-- Claim C4: an `rm` target that does not exist is reported with "No such
file or directory" and leaves the filesystem unchanged when force is unset,
and is silently skipped with the filesystem unchanged when force (`-f`) is
set — in both the CLI and the GUI front ends. -/
theorem c4_rm_nonexistent (root : FNode) (cwd : List String) (cur t : String)
    (hopt : strStartsWith t '-' = false)
    (hne : osExists root cwd t = false)
    (hgne : osExists root [] (guiJoin cur t) = false) :
    remove_files root cwd ["-f", t] = (root, []) ∧
    remove_files root cwd [t] =
      (root, ["rm: cannot remove \x27" ++ t ++ "\x27: No such file or directory"]) ∧
    gui_remove_file root cur ["-f", t] = (root, []) ∧
    gui_remove_file root cur [t] =
      (root, ["rm: " ++ t ++ ": No such file or directory"]) := by
  have hoptne : ¬ (strStartsWith t '-' = true) := by simp [hopt]
  have hgd := osIsDir_of_not_exists root [] (guiJoin cur t) hgne
  have hgf := osIsFile_of_not_exists root [] (guiJoin cur t) hgne
  have hp1 : parseArgsCLI ["-f", t] false false [] = .ok (true, false, [t]) := by
    have hstep : parseArgsCLI ["-f", t] false false [] =
        parseArgsCLI [t] true false [] := rfl
    rw [hstep, parseArgsCLI_cons_file t [] true false [] hoptne]
    rfl
  have hp2 : parseArgsCLI [t] false false [] = .ok (false, false, [t]) := by
    rw [parseArgsCLI_cons_file t [] false false [] hoptne]
    rfl
  have hg1 : parseArgsGUI ["-f", t] false false [] = (true, false, [t]) := by
    have hstep : parseArgsGUI ["-f", t] false false [] =
        parseArgsGUI [t] true false [] := rfl
    rw [hstep, parseArgsGUI_cons_file t [] true false [] hoptne]
    rfl
  have hg2 : parseArgsGUI [t] false false [] = (false, false, [t]) := by
    rw [parseArgsGUI_cons_file t [] false false [] hoptne]
    rfl
  refine ⟨?_, ?_, ?_, ?_⟩
  · simp only [remove_files, if_neg (by simp : ¬ (["-f", t] = [])), hp1]
    simp only [rmLoopCLI, rmStepCLI, hne, Bool.not_false, if_pos, if_true]
    simp
  · simp only [remove_files, if_neg (by simp : ¬ ([t] = [])), hp2]
    simp only [rmLoopCLI, rmStepCLI, hne, Bool.not_false, if_pos, if_true]
    simp
  · simp only [gui_remove_file, if_neg (by simp : ¬ (["-f", t] = [])), hg1]
    simp only [guiRmLoop, guiRmStep, hgne, hgd, hgf, Bool.not_true,
      Bool.and_false, Bool.false_and, Bool.not_false, Bool.true_and,
      Bool.and_true, if_neg, reduceIte]
    simp
  · simp only [gui_remove_file, if_neg (by simp : ¬ ([t] = [])), hg2]
    simp only [guiRmLoop, guiRmStep, hgne, hgd, hgf, Bool.not_true,
      Bool.and_false, Bool.false_and, Bool.not_false, Bool.true_and,
      Bool.and_true, if_pos, reduceIte]
    simp

/-- Witness for C4: target "x" in an empty root directory. -/
theorem c4_witness :
    remove_files (FNode.dir []) [] ["-f", "x"] = (FNode.dir [], []) ∧
    remove_files (FNode.dir []) [] ["x"] =
      (FNode.dir [], ["rm: cannot remove \x27x\x27: No such file or directory"]) ∧
    gui_remove_file (FNode.dir []) "/" ["-f", "x"] = (FNode.dir [], []) ∧
    gui_remove_file (FNode.dir []) "/" ["x"] =
      (FNode.dir [], ["rm: x: No such file or directory"]) :=
  c4_rm_nonexistent (FNode.dir []) [] "/" "x" (by decide) (by decide) (by decide)

/-- Claim C5: a `cd` whose argument resolves to an existing regular file
fails and leaves the current directory unchanged, in both front ends: the
CLI reports the OS Not-a-directory error, the GUI reports its generic
"No such directory" line; neither changes the current directory. -/
theorem c5_cd_to_file (root : FNode) (cwd : List String) (home : Option String)
    (p : String) (rest : List String) (cur : String)
    (hne : p ≠ "")
    (hfile : root.lookup (resolvePath cwd p) = some FNode.file)
    (hgfile : root.lookup (resolvePath [] (guiJoin cur p)) = some FNode.file) :
    change_directory root cwd home (p :: rest) =
      (cwd, ["cd: " ++ p ++ ": Not a directory (os error 20)"]) ∧
    gui_change_directory root cur home (p :: rest) =
      (cur, ["cd: " ++ p ++ ": No such directory"]) := by
  constructor
  · simp only [change_directory, osSetCurrentDir, if_neg hne, hfile]
    rw [String.append_assoc]
    rfl
  · have hd : osIsDir root [] (guiJoin cur p) = false := by
      unfold osIsDir
      rw [hgfile]
      cases (guiJoin cur p != "") <;> rfl
    simp only [gui_change_directory, hd, Bool.and_false, if_neg,
      Bool.false_eq_true, not_false_eq_true]

/-- Witness for C5: `cd f` where `f` is a regular file in the root. -/
theorem c5_witness :
    change_directory (FNode.dir [("f", FNode.file)]) [] (some "/") ["f"] =
      ([], ["cd: f: Not a directory (os error 20)"]) ∧
    gui_change_directory (FNode.dir [("f", FNode.file)]) "/" (some "/") ["f"] =
      ("/", ["cd: f: No such directory"]) :=
  c5_cd_to_file (FNode.dir [("f", FNode.file)]) [] (some "/") "f" [] "/"
    (by decide) (by rfl) (by rfl)

/-- Claim C6: `mkdir x` twice in succession (x a fresh single-segment name
under an existing current directory) succeeds on the first call, reports a
File-exists error on the second, and the directory created by the first call
still exists unchanged; a failing entry in a multi-argument `mkdir` (here a
pre-existing first entry) does not stop processing of the remaining
entries.  Both the CLI (with its existence pre-check message) and the GUI
(which surfaces the OS File-exists error) behave this way. -/
theorem c6_mkdir_twice (root : FNode) (cwd : List String)
    (es : List (String × FNode)) (x e : String) (cur : String)
    (hroot : root.lookup cwd = some (FNode.dir es))
    (hx : lookupEntry es x = none)
    (hseg : splitPath x = [x])
    (habs : strStartsWith x '/' = false)
    (hex : osExists root cwd e = true)
    (hcur : splitPath (guiJoin cur x) = cwd ++ [x]) :
    (make_directories root cwd [x]).2 = [] ∧
    ((make_directories root cwd [x]).1).lookup (cwd ++ [x]) =
      some (FNode.dir []) ∧
    make_directories (make_directories root cwd [x]).1 cwd [x] =
      ((make_directories root cwd [x]).1,
        ["mkdir: cannot create directory \x27" ++ x ++ "\x27: File exists"]) ∧
    make_directories root cwd [e, x] =
      ((make_directories root cwd [x]).1,
        ["mkdir: cannot create directory \x27" ++ e ++ "\x27: File exists"]) ∧
    (gui_make_directory root cur [x]).1 = (make_directories root cwd [x]).1 ∧
    (gui_make_directory root cur [x]).2 = ["Created directory: " ++ x] ∧
    gui_make_directory (gui_make_directory root cur [x]).1 cur [x] =
      ((gui_make_directory root cur [x]).1,
        ["mkdir: " ++ x ++ ": File exists (os error 17)"]) := by
  obtain ⟨r1, hc1, hc2⟩ := createDirAt_fresh cwd root es x hroot hx
  have hxne : x ≠ "" := by
    intro he
    rw [he] at hseg
    exact absurd hseg (by decide)
  have hres : resolvePath cwd x = cwd ++ [x] := by
    unfold resolvePath
    rw [if_neg (by simp [habs]), hseg]
  have hlook0 : root.lookup (cwd ++ [x]) = none := by
    rw [FNode.lookup_append, hroot]
    show (FNode.dir es).lookup [x] = none
    simp [FNode.lookup, hx]
  have hex1 : osExists root cwd x = false := by
    unfold osExists
    rw [hres, hlook0]
    simp
  have hcd : osCreateDir root cwd x = .ok r1 := by
    unfold osCreateDir
    rw [if_neg hxne, hres]
    exact hc1
  have hm1 : make_directories root cwd [x] = (r1, []) := by
    simp only [make_directories, if_neg (by simp : ¬ (([x] : List String) = [])),
      mkdirLoopCLI, mkdirStepCLI, hex1, hcd]
    simp
  have hl1 : r1.lookup (cwd ++ [x]) = some (FNode.dir []) := by
    rw [FNode.lookup_append, hc2]
    show (FNode.dir (es ++ [(x, FNode.dir [])])).lookup [x] = _
    simp [FNode.lookup, lookupEntry_append_nomatch x (FNode.dir []) es hx]
  have hex2 : osExists r1 cwd x = true := by
    unfold osExists
    rw [hres, hl1]
    simp [hxne]
  have hm2 : make_directories r1 cwd [x] =
      (r1, ["mkdir: cannot create directory \x27" ++ x ++ "\x27: File exists"]) := by
    simp only [make_directories, if_neg (by simp : ¬ (([x] : List String) = [])),
      mkdirLoopCLI, mkdirStepCLI, hex2]
    simp
  have hgne : guiJoin cur x ≠ "" := by
    intro he
    rw [he] at hcur
    have h0 : splitPath "" = [] := rfl
    rw [h0] at hcur
    exact absurd hcur.symm (by simp)
  have hgres : resolvePath [] (guiJoin cur x) = cwd ++ [x] := by
    rw [resolvePath_nil, hcur]
  have hgcd : osCreateDir root [] (guiJoin cur x) = .ok r1 := by
    unfold osCreateDir
    rw [if_neg hgne, hgres]
    exact hc1
  have hgm1 : gui_make_directory root cur [x] =
      (r1, ["Created directory: " ++ x]) := by
    simp only [gui_make_directory, if_neg (by simp : ¬ (([x] : List String) = [])),
      guiMkdirLoop, guiMkdirStep, hgcd]
    simp
  have hgcd2 : osCreateDir r1 [] (guiJoin cur x) =
      .error "File exists (os error 17)" := by
    unfold osCreateDir
    rw [if_neg hgne, hgres]
    exact createDirAt_exists cwd r1 (es ++ [(x, FNode.dir [])]) x hc2
      (by rw [lookupEntry_append_nomatch x (FNode.dir []) es hx]; rfl)
  have hgm2 : gui_make_directory r1 cur [x] =
      (r1, ["mkdir: " ++ x ++ ": File exists (os error 17)"]) := by
    simp only [gui_make_directory, if_neg (by simp : ¬ (([x] : List String) = [])),
      guiMkdirLoop, guiMkdirStep, hgcd2]
    simp only [List.append_nil]
    rw [String.append_assoc]
    rfl
  have hm3 : make_directories root cwd [e, x] =
      (r1, ["mkdir: cannot create directory \x27" ++ e ++ "\x27: File exists"]) := by
    simp only [make_directories,
      if_neg (by simp : ¬ (([e, x] : List String) = [])),
      mkdirLoopCLI, mkdirStepCLI, hex, hex1, hcd]
    simp [hex1, hcd]
  rw [hm1, hgm1]
  exact ⟨rfl, hl1, hm2, hm3, rfl, rfl, hgm2⟩

/-- Witness for C6: a fresh directory "x" in a root that already has an
entry "e". -/
theorem c6_witness :
    (make_directories (FNode.dir [("e", FNode.dir [])]) [] ["x"]).2 = [] ∧
    make_directories (make_directories (FNode.dir [("e", FNode.dir [])]) [] ["x"]).1 [] ["x"] =
      ((make_directories (FNode.dir [("e", FNode.dir [])]) [] ["x"]).1,
        ["mkdir: cannot create directory \x27x\x27: File exists"]) ∧
    make_directories (FNode.dir [("e", FNode.dir [])]) [] ["e", "x"] =
      ((make_directories (FNode.dir [("e", FNode.dir [])]) [] ["x"]).1,
        ["mkdir: cannot create directory \x27e\x27: File exists"]) := by
  have h := c6_mkdir_twice (FNode.dir [("e", FNode.dir [])]) []
    [("e", FNode.dir [])] "x" "e" "/" rfl rfl (by decide) (by decide)
    (by rfl) (by decide)
  exact ⟨h.1, h.2.2.1, h.2.2.2.1⟩

/-- Counterexample for C7: the claim says each `ls` column is left-padded to
20 cells, i.e. an entry shorter than 20 cells would be preceded by spaces.
For a directory holding the single file "a", both front ends emit the cell
"a" followed by 19 spaces (left-aligned, right-padded), not 19 spaces
followed by "a". -/
theorem c7_counterexample :
    gui_list_directory (FNode.dir [("a", FNode.file)]) "/" [] =
      ["a                   "] ∧
    list_directory (FNode.dir [("a", FNode.file)]) [] [] =
      "a                   \n" ∧
    "a                   " ≠ "                   a" := by
  refine ⟨rfl, rfl, by decide⟩

/-- Claim C7 as amended: for every readable target directory, `ls` emits the
entries in lexicographic order regardless of the order the filesystem
returns them, with a trailing separator appended to directory entries,
rendered 4 entries per row with each column left-aligned and right-padded
with spaces to 20 character cells.  The conjuncts: the GUI output is the
row-chunked rendering of the sorted decorated entries; the CLI prints
exactly those lines, each newline-terminated; the rendered sequence is
sorted and is a permutation of the decorated entries; a permutation of the
directory entries yields the same sorted sequence; the rendering chunks the
sorted sequence into rows whose concatenation restores it, every row being
non-empty with at most 4 cells, and every cell padded to max 20 cells. -/
theorem c7_ls_render (root : FNode) (cwd : List String) (cur dirArg : String)
    (entries : List (String × Bool))
    (hgui : osReadDirE root [] (guiJoin cur dirArg) = .ok entries)
    (hcli : osReadDirE root cwd dirArg = .ok entries) :
    gui_list_directory root cur [dirArg] =
      lsRenderSpec (List.insertionSort strSortLe (entries.map decorateEntry)) ∧
    list_directory root cwd [dirArg] =
      joinLinesNl (gui_list_directory root cur [dirArg]) ∧
    List.Sorted strSortLe
      (List.insertionSort strSortLe (entries.map decorateEntry)) ∧
    (List.insertionSort strSortLe (entries.map decorateEntry)).Perm
      (entries.map decorateEntry) ∧
    (∀ entries' : List (String × Bool), entries'.Perm entries →
      List.insertionSort strSortLe (entries'.map decorateEntry) =
        List.insertionSort strSortLe (entries.map decorateEntry)) ∧
    lsRenderSpec (List.insertionSort strSortLe (entries.map decorateEntry)) =
      (chunk4 (List.insertionSort strSortLe (entries.map decorateEntry))).map
        (fun row => lsRowString row "") ∧
    (chunk4 (List.insertionSort strSortLe (entries.map decorateEntry))).flatten =
      List.insertionSort strSortLe (entries.map decorateEntry) ∧
    (∀ row ∈ chunk4 (List.insertionSort strSortLe (entries.map decorateEntry)),
      row ≠ [] ∧ row.length ≤ 4) ∧
    (∀ s : String, (padRight20 s).length = max 20 s.length) := by
  have hgout : gui_list_directory root cur [dirArg] =
      lsRenderSpec (List.insertionSort strSortLe (entries.map decorateEntry)) := by
    simp only [gui_list_directory, hgui]
    exact guiLsGo_render _
  refine ⟨hgout, ?_, List.sorted_insertionSort strSortLe _,
    List.perm_insertionSort strSortLe _, ?_, lsRenderSpec_eq_chunk _ _ le_rfl,
    chunk4_flatten _ _ le_rfl, chunk4_bounds _ _ le_rfl, padRight20_length⟩
  · rw [hgout]
    simp only [list_directory, hcli]
    exact cliLsGo_eq _ _ 0 le_rfl (by omega)
  · intro entries' hperm
    refine List.eq_of_perm_of_sorted ?_
      (List.sorted_insertionSort strSortLe _)
      (List.sorted_insertionSort strSortLe _)
    exact ((List.perm_insertionSort strSortLe _).trans
      (hperm.map decorateEntry)).trans
      (List.perm_insertionSort strSortLe _).symm

/-- Witness for C7: `ls d` on a directory `d` whose entries are returned in
the order [b (file), a (directory)] renders one row, sorted, with the
directory decorated and both cells padded to 20. -/
theorem c7_witness :
    lsRenderSpec (List.insertionSort strSortLe
      (List.map decorateEntry [("b", false), ("a", true)])) =
      ["a/                  b                   "] := by
  have h := c7_ls_render
    (FNode.dir [("d", FNode.dir [("b", FNode.file), ("a", FNode.dir [])])])
    [] "/" "d" [("b", false), ("a", true)] rfl rfl
  rw [← h.1]
  rfl

/-- Claim C8: the history cursor always stays within 0..=len: Up decrements
only above 0 and loads the entry at the new index, Down increments only
below len and yields empty input exactly when it reaches len, and submitting
a non-empty command appends it and resets the cursor to the new length.
After entering A, B, C, one Up yields C, a second Up yields B, and Down at
the most recent entry yields empty input. -/
theorem c8_history (s : HistView) (ev : HistEvent)
    (hinv : s.index ≤ s.history.length) :
    (histStep ev s).index ≤ (histStep ev s).history.length ∧
    (0 < s.index → histStep HistEvent.up s =
      { s with index := s.index - 1,
               input := s.history.getD (s.index - 1) "" }) ∧
    (s.index = 0 → histStep HistEvent.up s = s) ∧
    (s.index < s.history.length →
      (histStep HistEvent.down s).index = s.index + 1 ∧
      (s.index + 1 = s.history.length →
        (histStep HistEvent.down s).input = "") ∧
      (s.index + 1 < s.history.length →
        (histStep HistEvent.down s).input = s.history.getD (s.index + 1) "")) ∧
    (s.index = s.history.length → histStep HistEvent.down s = s) ∧
    (∀ cmd, cmd ≠ "" → histStep (HistEvent.submit cmd) s =
      { history := s.history ++ [cmd],
        index := (s.history ++ [cmd]).length, input := "" }) ∧
    (histStep HistEvent.up
        (histStep (HistEvent.submit "C") (histStep (HistEvent.submit "B")
          (histStep (HistEvent.submit "A") ⟨[], 0, ""⟩)))).input = "C" ∧
    (histStep HistEvent.up (histStep HistEvent.up
        (histStep (HistEvent.submit "C") (histStep (HistEvent.submit "B")
          (histStep (HistEvent.submit "A") ⟨[], 0, ""⟩))))).input = "B" ∧
    (histStep HistEvent.down (histStep HistEvent.up
        (histStep (HistEvent.submit "C") (histStep (HistEvent.submit "B")
          (histStep (HistEvent.submit "A") ⟨[], 0, ""⟩))))).input = "" := by
  refine ⟨?_, ?_, ?_, ?_, ?_, ?_, by decide, by decide, by decide⟩
  · cases ev with
    | up =>
      simp only [histStep]
      by_cases h : s.index > 0
      · rw [if_pos h]
        simp only
        omega
      · rw [if_neg h]
        exact hinv
    | down =>
      simp only [histStep]
      by_cases h : s.index < s.history.length
      · rw [if_pos h]
        by_cases h2 : s.index + 1 = s.history.length
        · rw [if_pos h2]
          simp only
          omega
        · rw [if_neg h2]
          simp only
          omega
      · rw [if_neg h]
        exact hinv
    | submit cmd =>
      simp only [histStep]
      by_cases h : cmd ≠ ""
      · rw [if_pos h]
        simp
      · rw [if_neg h]
        exact hinv
  · intro h
    simp only [histStep, if_pos h]
  · intro h
    simp only [histStep]
    rw [if_neg (by omega)]
  · intro h
    refine ⟨?_, ?_, ?_⟩
    · simp only [histStep, if_pos h]
      by_cases h2 : s.index + 1 = s.history.length
      · rw [if_pos h2]
      · rw [if_neg h2]
    · intro h2
      simp only [histStep, if_pos h, if_pos h2]
    · intro h2
      simp only [histStep, if_pos h, if_neg (by omega : ¬ s.index + 1 = s.history.length)]
  · intro h
    simp only [histStep]
    rw [if_neg (by omega)]
  · intro cmd hcmd
    simp only [histStep, if_pos hcmd]
    simp

/-- Witness for C8: one Up press from the resting position after a single
entry loads that entry. -/
theorem c8_witness :
    histStep HistEvent.up { history := ["a"], index := 1, input := "" } =
      { history := ["a"], index := 0, input := "a" } := by
  have h := c8_history { history := ["a"], index := 1, input := "" }
    HistEvent.up (by decide)
  rw [h.2.1 (by decide)]
  rfl

/-- Counterexample for C9: the claim says that after every command execution
the GUI output buffer holds at most 1000 lines.  A submission consisting of
a single space is non-empty, so `execute_command` runs, pushes the prompt
line, and then returns early (its token list is empty) before the trimming
loop: starting from a buffer of exactly 1000 lines it leaves 1001 lines. -/
theorem c9_counterexample :
    ((execute_command extSilent none (FNode.dir []) appAtBound " ").2.output).length
      = 1001 := by
  have htok : split_whitespace (rustTrim " ") = [] := rfl
  simp only [execute_command, execute_command_raw, htok, if_pos]
  simp [appAtBound]

/-- Claim C9 as amended: for every submission whose input contains at least
one token (equivalently, every command that reaches the dispatch table,
including unknown commands sent to the external runner), the output buffer
after `execute_command` holds at most 1000 lines and is the suffix of the
untrimmed buffer obtained by discarding the oldest lines beyond 1000.  A
whitespace-only (but non-empty) submission instead returns before the bound
is enforced and can leave 1001 lines. -/
theorem c9_output_bound (ext : ExtRunner) (home : Option String) (root : FNode)
    (app : TerminalApp) (command : String)
    (h : ¬ split_whitespace (rustTrim command) = []) :
    (execute_command ext home root app command).2.output =
      ((execute_command_raw ext home root app command).2.output).drop
        (((execute_command_raw ext home root app command).2.output).length
          - 1000) ∧
    ((execute_command ext home root app command).2.output).length ≤ 1000 ∧
    ((execute_command_raw ext home root app command).2.output).take
        (((execute_command_raw ext home root app command).2.output).length
          - 1000) ++
      (execute_command ext home root app command).2.output =
      (execute_command_raw ext home root app command).2.output := by
  have he : (execute_command ext home root app command).2.output =
      trimOutput (execute_command_raw ext home root app command).2.output := by
    simp only [execute_command, if_neg h]
  rw [he, trimOutput_eq_drop
    ((execute_command_raw ext home root app command).2.output).length _ le_rfl]
  refine ⟨rfl, ?_, List.take_append_drop _ _⟩
  rw [List.length_drop]
  omega

/-- Witness for C9: a `pwd` submission against a full buffer stays within
the 1000-line bound. -/
theorem c9_witness :
    ((execute_command extSilent none (FNode.dir []) appAtBound "pwd").2.output).length
      ≤ 1000 :=
  (c9_output_bound extSilent none (FNode.dir []) appAtBound "pwd"
    (by decide)).2.1

/-- Claim C10: a CLI `rm` invocation whose arguments are only (recognised)
option tokens reports "rm: missing operand" and mutates nothing; the GUI in
the same situation silently does nothing: no message, no mutation. -/
theorem c10_rm_only_options (root : FNode) (cwd : List String) (cur : String)
    (args : List String) (hne : args ≠ [])
    (hopt : ∀ a ∈ args, strStartsWith a '-' = true)
    (hval : ∀ a ∈ args, ∀ c ∈ a.toList.drop 1, isValidFlag c = true) :
    remove_files root cwd args = (root, ["rm: missing operand"]) ∧
    gui_remove_file root cur args = (root, []) := by
  obtain ⟨fr, hfr⟩ := parseArgsCLI_ok_all_opts args false false [] hopt hval
  have hfilter : args.filter (fun a => !(strStartsWith a '-')) = [] := by
    rw [List.filter_eq_nil_iff]
    intro a ha
    rw [hopt a ha]
    simp
  constructor
  · simp only [remove_files, if_neg hne, hfr]
    rfl
  · have hfiles := parseArgsGUI_files args false false []
    rw [List.nil_append, hfilter] at hfiles
    simp only [gui_remove_file, if_neg hne, hfiles]
    rfl

/-- Witness for C10: `rm -rf` with no target. -/
theorem c10_witness :
    remove_files (FNode.dir []) [] ["-rf"] =
      (FNode.dir [], ["rm: missing operand"]) ∧
    gui_remove_file (FNode.dir []) "/" ["-rf"] = (FNode.dir [], []) :=
  c10_rm_only_options (FNode.dir []) [] "/" ["-rf"] (by decide)
    (by decide) (by decide)
